import Mathlib

/-!
Shallow embedding of the cwl-linter rule engine.

The source of truth is the repository file `lib/linter.js` (position
resolver `findFieldPosition`, the six rules, and the engine
`lintCWLContent`), plus the parse-error translation of the editor engine
`lintCWLDocument` in `extension.js` (modelled only for its catch branch,
which is the only place an end column is computed).

Modelling conventions:
  * YAML parsing is done by the third-party `js-yaml` library, which is
    outside this repository; the engine is therefore parameterised over
    the parse outcome (`ParseOutcome`): either a document tree (`JsValue`)
    or a caught `YAMLException` (optional mark, optional reason, message).
  * JavaScript values reachable from `yaml.load` are modelled by
    `JsValue`; fallible JS operations (property access on null/undefined,
    the `in` operator on primitives, `Object.entries` on null) return
    `Except String`, the `String` being the thrown error's message.
  * The interpolated regular expression `^\s*<fieldName>:\s*` is modelled
    literally for field names over the character class the rules use
    (`[A-Za-z0-9_$-]`), with one JS regex subtlety preserved: an
    interpolated `$` is an end-of-input anchor followed by further
    required pattern, so any field name containing `$` yields a regex
    that matches no line at all.
  * `Object.keys`/`Object.entries` on exotic receivers (strings, numbers)
    and inherited prototype properties of the field-order table are
    unreachable on the engine's paths and are given straightforward
    values.
-/

/-- JavaScript characters matched by the regex class `\s` (the ones that can
occur inside a line once the text has been split on newlines, plus NBSP). -/
def jsIsSpace (c : Char) : Bool :=
  c = ' ' || c = '\t' || c = '\n' || c = '\r' || c = '\x0b' || c = '\x0c' || c = ' '

/-- Auxiliary for `splitLines`: the semantics of JS `String.split` on the
single-character separator. `"".split` gives `[""]`, a trailing separator
yields a trailing empty string. -/
def splitLinesAux : List Char → List (List Char)
  | [] => [[]]
  | c :: rest =>
    if c = '\n' then [] :: splitLinesAux rest
    else
      match splitLinesAux rest with
      | [] => [[c]]
      | l :: ls => (c :: l) :: ls

/-- JS `content.split` on a newline, as used throughout the linter. -/
def splitLines (s : String) : List String :=
  (splitLinesAux s.data).map String.mk

/-- JS `s.trim() === ''`: the string consists only of whitespace. -/
def isBlankStr (s : String) : Bool :=
  s.data.all jsIsSpace

/-- Characters admitted by the field-name class `[a-zA-Z0-9_$\-]` of the
blank-line rule's regex. -/
def isFieldNameChar (c : Char) : Bool :=
  c.isAlpha || c.isDigit || c = '_' || c = '$' || c = '-'

/-- The blank-line rule's match `line.match(/^\s*([a-zA-Z0-9_$\-]+):/)`,
returning the captured field name. The whitespace class and the name class
are disjoint, so greedy matching is exact. -/
def topFieldMatch (line : String) : Option String :=
  let afterWs := line.data.dropWhile jsIsSpace
  let name := afterWs.takeWhile isFieldNameChar
  let rest := afterWs.dropWhile isFieldNameChar
  if name.isEmpty then none
  else if rest.head? == some ':' then some (String.mk name)
  else none

/-- First index at which `needle` occurs in `hay` (JS `String.indexOf`,
returning `none` for JS `-1`; note `"".indexOf("")` is `0`). -/
def jsSubstrIndex (hay needle : List Char) : Option Nat :=
  if needle.isPrefixOf hay then some 0
  else
    match hay with
    | [] => none
    | _ :: t => (jsSubstrIndex t needle).map (fun n => n + 1)

/-- JS `hay.includes(needle)`. -/
def jsIncludesSub (hay needle : List Char) : Bool :=
  (jsSubstrIndex hay needle).isSome

/-- Test of the regex `/^\S/` against a line. -/
def startsNonWs (line : String) : Bool :=
  match line.data.head? with
  | some c => !jsIsSpace c
  | none => false

/-- The constructed pattern `new RegExp("^\\s*" + fieldName + ":\\s*")`
tested against one line. For the field names the rules pass
(`[A-Za-z0-9_$-]` characters) every character except `$` is a regex
literal; an interpolated `$` is the end-of-input anchor and is always
followed by further required pattern (at least the `:`), so such a
pattern matches no line. The trailing `\s*` matches the empty string and
imposes no constraint. -/
def lineMatchesField (fieldName line : String) : Bool :=
  if fieldName.data.contains '$' then false
  else
    let afterWs := line.data.dropWhile jsIsSpace
    fieldName.data.isPrefixOf afterWs &&
      ((afterWs.drop fieldName.data.length).head? == some ':')

/-- A zero-based line/column pair (`{line, character}` object of the
linter). The source stores `lines[i].indexOf(fieldName)` in `character`;
on every reachable path the match guarantees an occurrence, so the `-1`
case does not arise and `Nat` is adequate (`getD 0` marks the spot). -/
structure SourcePosition where
  line : Nat
  character : Nat
deriving DecidableEq

/-- One linter diagnostic of `lib/linter.js`: message plus zero-based
start position (the library engine emits no end position). -/
structure Diagnostic where
  message : String
  line : Nat
  character : Nat
deriving DecidableEq

/-- Backward scan of `findFieldPosition` for a parent context: starting at
line `j` and walking toward line 0, succeed on the first line containing
`parentContext` as a substring, and stop (fail) upon a line with no
leading whitespace. The containment test precedes the stop test, exactly
as in the source. At index 0 both failure outcomes coincide, so only the
containment test remains. -/
def contextScan (lines : List String) (ctx : String) : Nat → Bool
  | 0 => jsIncludesSub (lines.getD 0 "").data ctx.data
  | j + 1 =>
    let lj := lines.getD (j + 1) ""
    if jsIncludesSub lj.data ctx.data then true
    else if startsNonWs lj then false
    else contextScan lines ctx j

/-- The `contextFound` flag computed at candidate line `i`: the backward
scan over lines `i-1 .. 0`; at `i = 0` the backward loop body never runs,
so the flag is false. -/
def ffpCtxFound (allLines : List String) (ctx : String) : Nat → Bool
  | 0 => false
  | i' + 1 => contextScan allLines ctx i'

/-- Main loop of `findFieldPosition`: scan the lines top to bottom (the
list argument is the remaining suffix, `i` the index of its head within
`allLines`); on a pattern match accept immediately when no parent context
is required, otherwise only when the backward scan finds the context;
return `{0,0}` when the scan is exhausted. -/
def ffpLoop (fieldName parentContext : String) (allLines : List String) :
    List String → Nat → SourcePosition
  | [], _ => ⟨0, 0⟩
  | line :: rest, i =>
    if lineMatchesField fieldName line then
      if parentContext.isEmpty then
        ⟨i, (jsSubstrIndex line.data fieldName.data).getD 0⟩
      else if ffpCtxFound allLines parentContext i then
        ⟨i, (jsSubstrIndex line.data fieldName.data).getD 0⟩
      else ffpLoop fieldName parentContext allLines rest (i + 1)
    else ffpLoop fieldName parentContext allLines rest (i + 1)

/-- The position resolver `findFieldPosition(content, fieldName,
parentContext)` of `lib/linter.js`. -/
def findFieldPosition (content fieldName parentContext : String) : SourcePosition :=
  ffpLoop fieldName parentContext (splitLines content) (splitLines content) 0

/-- JavaScript values produced by `yaml.load` (plus `undefined`, which it
returns for an empty document). Mappings keep key insertion order; keys
are unique because `js-yaml` rejects duplicate keys. -/
inductive JsValue where
  | null
  | undefined
  | bool (b : Bool)
  | num (n : Int)
  | str (s : String)
  | arr (elems : List JsValue)
  | obj (fields : List (String × JsValue))

/-- Own-property lookup on an object literal; absent keys read as
`undefined`. -/
def jsLookup (fields : List (String × JsValue)) (key : String) : JsValue :=
  match fields with
  | [] => .undefined
  | (k, v) :: rest => if k == key then v else jsLookup rest key

/-- Property access `v.key`: throws a `TypeError` on `null`/`undefined`,
reads own properties of objects, and yields `undefined` on every other
receiver for the property names the rules use. -/
def getProp (v : JsValue) (key : String) : Except String JsValue :=
  match v with
  | .null => .error ("Cannot read properties of null (reading \x27" ++ key ++ "\x27)")
  | .undefined => .error ("Cannot read properties of undefined (reading \x27" ++ key ++ "\x27)")
  | .obj fields => .ok (jsLookup fields key)
  | _ => .ok .undefined

/-- JS truthiness of a `JsValue`. -/
def truthy : JsValue → Bool
  | .null => false
  | .undefined => false
  | .bool b => b
  | .num n => n != 0
  | .str s => !s.isEmpty
  | .arr _ => true
  | .obj _ => true

/-- The test `typeof v === 'object'`: true for objects, arrays and `null`. -/
def typeofIsObject : JsValue → Bool
  | .null => true
  | .arr _ => true
  | .obj _ => true
  | _ => false

/-- Strict comparison `v === s` against a string literal. -/
def jsStrictEqStr (v : JsValue) (s : String) : Bool :=
  match v with
  | .str t => t == s
  | _ => false

/-- JS `xs.includes(v)` for an array of string literals: true only when
`v` is a string strictly equal to a member. -/
def jsIncludesStr (xs : List String) (v : JsValue) : Bool :=
  match v with
  | .str s => xs.contains s
  | _ => false

/-- The `in` operator `key in v`: own-key test on objects, `false` on
arrays for the non-index keys the rule uses, and a `TypeError` on
primitives, in particular on `null`. -/
def jsIn (key : String) : JsValue → Except String Bool
  | .obj fields => .ok (fields.any (fun kv => kv.1 == key))
  | .arr _ => .ok false
  | .null => .error ("Cannot use \x27in\x27 operator to search for \x27" ++ key ++ "\x27 in null")
  | .undefined => .error ("Cannot use \x27in\x27 operator to search for \x27" ++ key ++ "\x27 in undefined")
  | .bool b => .error ("Cannot use \x27in\x27 operator to search for \x27" ++ key ++ "\x27 in " ++ (if b then "true" else "false"))
  | .num n => .error ("Cannot use \x27in\x27 operator to search for \x27" ++ key ++ "\x27 in " ++ toString n)
  | .str s => .error ("Cannot use \x27in\x27 operator to search for \x27" ++ key ++ "\x27 in " ++ s)

/-- Index/value pairs of an array, with stringified indices, as produced
by `Object.entries`/`Object.keys` on arrays. -/
def enumFrom (i : Nat) : List JsValue → List (String × JsValue)
  | [] => []
  | v :: t => (Nat.repr i, v) :: enumFrom (i + 1) t

/-- `Object.entries(v)`: field pairs of objects in insertion order,
index/element pairs of arrays and strings, a `TypeError` on
`null`/`undefined`, and the empty list on remaining primitives. -/
def jsEntries : JsValue → Except String (List (String × JsValue))
  | .obj fields => .ok fields
  | .arr xs => .ok (enumFrom 0 xs)
  | .str s => .ok (enumFrom 0 (s.data.map (fun c => JsValue.str (String.mk [c]))))
  | .null => .error "Cannot convert undefined or null to object"
  | .undefined => .error "Cannot convert undefined or null to object"
  | _ => .ok []

/-- `Object.keys(v)`. -/
def objectKeys (v : JsValue) : Except String (List String) :=
  match v with
  | .obj fields => .ok (fields.map Prod.fst)
  | .arr xs => .ok ((enumFrom 0 xs).map Prod.fst)
  | .str s => .ok ((enumFrom 0 (s.data.map (fun c => JsValue.str (String.mk [c])))).map Prod.fst)
  | .null => .error "Cannot convert undefined or null to object"
  | .undefined => .error "Cannot convert undefined or null to object"
  | _ => .ok []

/-- The `fieldOrderConfig` table: canonical top-level field order per
class. The lookup `fieldOrderConfig[classType]` is modelled for own
properties of the table (inherited prototype keys are unreachable for
parsed YAML class values of interest and are not modelled). -/
def fieldOrderConfig (classType : JsValue) : Option (List String) :=
  match classType with
  | .str "CommandLineTool" =>
    some ["cwlVersion", "class", "label", "doc", "$namespaces",
          "requirements", "hints", "inputs", "outputs",
          "baseCommand", "arguments", "stdout", "stderr"]
  | .str "ExpressionTool" =>
    some ["cwlVersion", "class", "doc", "$namespaces",
          "requirements", "hints", "inputs", "outputs", "expression"]
  | .str "Workflow" =>
    some ["cwlVersion", "class", "label", "doc", "$namespaces",
          "requirements", "hints", "inputs", "outputs", "steps"]
  | _ => none

/-- The `blankLineConfig` set of fields requiring a preceding blank line. -/
def blankLineConfig : List String :=
  ["$namespaces", "requirements", "hints", "inputs", "outputs",
   "baseCommand", "arguments", "expression", "steps"]

/-- A rule: a function of the parsed document and the raw text that
either returns diagnostics or throws (message of the thrown error). -/
def Rule : Type :=
  JsValue → String → Except String (List Diagnostic)

/-- The rule `checkVersion`. -/
def checkVersion : Rule := fun doc content =>
  match getProp doc "cwlVersion" with
  | .error e => .error e
  | .ok v =>
    if truthy v then .ok []
    else
      let pos := findFieldPosition content "cwlVersion" ""
      .ok [⟨"Missing cwlVersion field", pos.line, pos.character⟩]

/-- The rule `checkClass`. -/
def checkClass : Rule := fun doc content =>
  match getProp doc "class" with
  | .error e => .error e
  | .ok v =>
    if !truthy v then
      let pos := findFieldPosition content "class" ""
      .ok [⟨"Missing class field", pos.line, pos.character⟩]
    else if !jsIncludesStr ["Workflow", "CommandLineTool", "ExpressionTool"] v then
      let pos := findFieldPosition content "class" ""
      .ok [⟨"Invalid class value. Must be one of: Workflow, CommandLineTool, ExpressionTool",
            pos.line, pos.character⟩]
    else .ok []

/-- The rule `checkInputs`. -/
def checkInputs : Rule := fun doc content =>
  match getProp doc "inputs" with
  | .error e => .error e
  | .ok v =>
    if truthy v && !typeofIsObject v then
      let pos := findFieldPosition content "inputs" ""
      .ok [⟨"Inputs must be an object or array", pos.line, pos.character⟩]
    else .ok []

/-- JS `expectedOrder.indexOf(field)` (`none` for `-1`). -/
def jsArrayIndexOf (xs : List String) (x : String) : Option Nat :=
  match xs with
  | [] => none
  | y :: t => if y == x then some 0 else (jsArrayIndexOf t x).map (fun n => n + 1)

/-- The out-of-order diagnostic of `checkFieldOrder`, referencing the
field at the current `lastIndex`. -/
def outOfOrderDiag (expectedOrder : List String) (content : String)
    (field : String) (lastIndex : Nat) : Diagnostic :=
  let pos := findFieldPosition content field ""
  ⟨"Field \x27" ++ field ++ "\x27 is out of order. It should appear before \x27" ++
     expectedOrder.getD lastIndex "" ++ "\x27.",
   pos.line, pos.character⟩

/-- The forward pass of `checkFieldOrder`: fields absent from the
canonical order are skipped; a field whose canonical index is below
`lastIndex` is flagged and leaves `lastIndex` unchanged; otherwise
`lastIndex` advances to that index. `lastIndex` starts at `-1`. -/
def fieldOrderLoop (expectedOrder : List String) (content : String) :
    List String → Int → List Diagnostic
  | [], _ => []
  | field :: rest, lastIndex =>
    match jsArrayIndexOf expectedOrder field with
    | none => fieldOrderLoop expectedOrder content rest lastIndex
    | some ci =>
      if (ci : Int) < lastIndex then
        outOfOrderDiag expectedOrder content field lastIndex.toNat ::
          fieldOrderLoop expectedOrder content rest lastIndex
      else fieldOrderLoop expectedOrder content rest (ci : Int)

/-- The rule `checkFieldOrder`. -/
def checkFieldOrder : Rule := fun doc content =>
  match getProp doc "class" with
  | .error e => .error e
  | .ok classType =>
    match fieldOrderConfig classType with
    | none => .ok []
    | some expectedOrder =>
      match objectKeys doc with
      | .error e => .error e
      | .ok fieldsInDoc => .ok (fieldOrderLoop expectedOrder content fieldsInDoc (-1))

/-- Message of the surplus-blank-lines diagnostic. -/
def moreThanOneBlankMsg (f : String) : String :=
  "More than one blank line before field \x27" ++ f ++ "\x27."

/-- Message of the missing-blank-line diagnostic. -/
def missingBlankMsg (f : String) : String :=
  "Missing blank line before field \x27" ++ f ++ "\x27."

/-- Diagnostics the blank-line rule pushes while visiting line `i`
(`i ≥ 1`): the two checks in source order, both anchored at line `i`,
column 0. The short-circuit `i >= 2` guard of the first check is kept
before the `lines[i-2]` read. -/
def blankDiagsAt (lines : List String) (i : Nat) : List Diagnostic :=
  match topFieldMatch (lines.getD i "") with
  | none => []
  | some fieldName =>
    (if isBlankStr (lines.getD (i - 1) "") && decide (2 ≤ i) &&
        isBlankStr (lines.getD (i - 2) "")
     then [⟨moreThanOneBlankMsg fieldName, i, 0⟩] else []) ++
    (if blankLineConfig.contains fieldName && !isBlankStr (lines.getD (i - 1) "")
     then [⟨missingBlankMsg fieldName, i, 0⟩] else [])

/-- All diagnostics of the blank-line rule: the loop body for
`i = 1 .. lines.length - 1` in order. -/
def blankLineDiags (content : String) : List Diagnostic :=
  let lines := splitLines content
  (List.range' 1 (lines.length - 1)).flatMap (blankDiagsAt lines)

/-- The rule `checkBlankLines` (it never throws). -/
def checkBlankLines : Rule := fun _doc content =>
  .ok (blankLineDiags content)

/-- Message of the missing-label diagnostic of the workflow-input rule. -/
def missingLabelMsg (k : String) : String :=
  "Input \x27" ++ k ++ "\x27 is missing required \x27label\x27 field."

/-- Message of the missing-doc diagnostic of the workflow-input rule. -/
def missingDocMsg (k : String) : String :=
  "Input \x27" ++ k ++ "\x27 is missing required \x27doc\x27 field."

/-- Entry loop of `checkWorkflowInputMetadata`: entries whose value fails
`typeof === 'object'` are skipped; entries whose key anchors to no line
are skipped; otherwise the two `in` tests run (throwing on a `null`
value) and the missing-metadata diagnostics are pushed. -/
def wfInputLoop (lines : List String) :
    List (String × JsValue) → Except String (List Diagnostic)
  | [] => .ok []
  | (inputKey, inputValue) :: rest =>
    if !typeofIsObject inputValue then wfInputLoop lines rest
    else
      match lines.findIdx? (fun line => lineMatchesField inputKey line) with
      | none => wfInputLoop lines rest
      | some baseLine =>
        match jsIn "label" inputValue with
        | .error e => .error e
        | .ok hasLabel =>
          match jsIn "doc" inputValue with
          | .error e => .error e
          | .ok hasDoc =>
            match wfInputLoop lines rest with
            | .error e => .error e
            | .ok ds =>
              .ok ((if hasLabel then [] else [⟨missingLabelMsg inputKey, baseLine, 0⟩]) ++
                   (if hasDoc then [] else [⟨missingDocMsg inputKey, baseLine, 0⟩]) ++ ds)

/-- The rule `checkWorkflowInputMetadata`; the `||` of the guard
short-circuits, so `doc.inputs` is only read when the class is
`Workflow`. -/
def checkWorkflowInputMetadata : Rule := fun doc content =>
  match getProp doc "class" with
  | .error e => .error e
  | .ok cls =>
    if !jsStrictEqStr cls "Workflow" then .ok []
    else
      match getProp doc "inputs" with
      | .error e => .error e
      | .ok inputs =>
        if !typeofIsObject inputs then .ok []
        else
          match jsEntries inputs with
          | .error e => .error e
          | .ok entries => wfInputLoop (splitLines content) entries

/-- The rules in registration order (`Object.values(rules)`). -/
def ruleList : List Rule :=
  [checkVersion, checkClass, checkInputs, checkFieldOrder, checkBlankLines,
   checkWorkflowInputMetadata]

/-- Run the rules in order, concatenating their diagnostics; the first
thrown error aborts the remaining rules and is reported alongside the
diagnostics already pushed. -/
def runRules : List Rule → JsValue → String → List Diagnostic × Option String
  | [], _, _ => ([], none)
  | r :: rs, doc, content =>
    match r doc content with
    | .error e => ([], some e)
    | .ok ds => (ds ++ (runRules rs doc content).1, (runRules rs doc content).2)

/-- A parser mark: zero-based line and column of a YAML failure. -/
structure YamlMark where
  line : Nat
  column : Nat
deriving DecidableEq

/-- A caught error as the engine's catch block sees it: optional
`mark`, optional `reason` and a `message`. A rule's `TypeError` has
neither mark nor reason. -/
structure CaughtError where
  mark : Option YamlMark
  reason : Option String
  message : String
deriving DecidableEq

/-- JS `error.reason || error.message` (an absent or empty reason is
falsy). -/
def jsOrElse (reason : Option String) (message : String) : String :=
  match reason with
  | some r => if r.isEmpty then message else r
  | none => message

/-- The catch block of `lintCWLContent`: with a mark, anchor at the mark
and use `reason || message`; otherwise anchor at the origin and use
`message`. -/
def catchDiag (e : CaughtError) : Diagnostic :=
  match e.mark with
  | some m => ⟨"YAML parsing error: " ++ jsOrElse e.reason e.message, m.line, m.column⟩
  | none => ⟨"YAML parsing error: " ++ e.message, 0, 0⟩

/-- Outcome of `yaml.load(content)`: a document tree, or a caught
`YAMLException`. -/
inductive ParseOutcome where
  | ok (doc : JsValue)
  | err (e : CaughtError)

/-- The engine `lintCWLContent`, parameterised over the outcome of the
external YAML parse of `content`. On a parse failure no rule runs; a
rule's thrown error is converted by the same catch block and appended
after the diagnostics already pushed. -/
def lintCWLContent (outcome : ParseOutcome) (content : String) : List Diagnostic :=
  match outcome with
  | .ok doc =>
    match runRules ruleList doc content with
    | (ds, none) => ds
    | (ds, some e) => ds ++ [catchDiag ⟨none, none, e⟩]
  | .err e => [catchDiag e]

/-- A `vscode.Range` as built by `extension.js` (zero-based). -/
structure ExtRange where
  startLine : Nat
  startCharacter : Nat
  endLine : Nat
  endCharacter : Nat
deriving DecidableEq

/-- A diagnostic of the editor engine: message plus range. -/
structure ExtDiagnostic where
  message : String
  range : ExtRange
deriving DecidableEq

/-- The catch block of the editor engine `lintCWLDocument`
(`extension.js`): with a mark, the end column is the length of the source
line at the mark's line, or `column + 1` when that line is empty or out
of range (`lineContent ? lineContent.length : column + 1` — the empty
string is falsy); without a mark, an empty range at the origin. -/
def lintCWLDocumentCatch (content : String) (e : CaughtError) : List ExtDiagnostic :=
  match e.mark with
  | some m =>
    let lineContent := (splitLines content)[m.line]?
    let endColumn :=
      match lineContent with
      | some l => if l.isEmpty then m.column + 1 else l.length
      | none => m.column + 1
    [⟨"YAML parsing error: " ++ jsOrElse e.reason e.message,
      ⟨m.line, m.column, m.line, endColumn⟩⟩]
  | none => [⟨"YAML parsing error: " ++ e.message, ⟨0, 0, 0, 0⟩⟩]

/-! Helper lemmas about strings and messages. -/

deriving instance DecidableEq for Except

/-- A string of the form `p ++ f ++ q` differs from any string shorter
than the two literal parts combined. -/
theorem wrapNe (p q f t : String) (h : t.length < p.length + q.length) :
    (p ++ f) ++ q ≠ t := by
  intro e
  have hlen := congrArg String.length e
  rw [String.length_append, String.length_append] at hlen
  omega

/-- Likewise for two interpolated parts, `p ++ f ++ q ++ g ++ r`. -/
theorem wrapNe2 (p q r f g t : String) (h : t.length < p.length + q.length + r.length) :
    ((((p ++ f) ++ q) ++ g) ++ r) ≠ t := by
  intro e
  have hlen := congrArg String.length e
  rw [String.length_append, String.length_append, String.length_append,
      String.length_append] at hlen
  omega

/-- A parse-error message never equals the missing-version message (the
leading characters differ). -/
theorem yamlPrefixNeMissing (m : String) :
    "YAML parsing error: " ++ m ≠ "Missing cwlVersion field" := by
  intro e
  have hdata := congrArg String.data e
  rw [String.data_append] at hdata
  have h1 : ("YAML parsing error: " : String).data =
      'Y' :: ("AML parsing error: " : String).data := rfl
  have h2 : ("Missing cwlVersion field" : String).data =
      'M' :: ("issing cwlVersion field" : String).data := rfl
  rw [h1, h2, List.cons_append] at hdata
  injection hdata with hc _
  exact absurd hc (by decide)

/-! Claim theorems. -/

/-- Claim C1: on every parse failure the engine runs no rule and returns
exactly one diagnostic whose message starts with "YAML parsing error: ",
anchored at the parser's mark when present and at the origin otherwise;
and on every input the engine totally returns a diagnostic list. -/
theorem claims_C1 (e : CaughtError) (content : String) :
    (∃ d, lintCWLContent (ParseOutcome.err e) content = [d] ∧
       (∃ rest, d.message = "YAML parsing error: " ++ rest) ∧
       d.line = (match e.mark with | some m => m.line | none => 0) ∧
       d.character = (match e.mark with | some m => m.column | none => 0)) ∧
    (∀ o, ∃ ds, lintCWLContent o content = ds) := by
  constructor
  · cases hm : e.mark with
    | some m =>
      refine ⟨catchDiag e, rfl, ?_, ?_, ?_⟩ <;> simp [catchDiag, hm]
    | none =>
      refine ⟨catchDiag e, rfl, ?_, ?_, ?_⟩ <;> simp [catchDiag, hm]
  · intro o
    exact ⟨_, rfl⟩

/-- Claim C4: for a CommandLineTool document with keys in order
cwlVersion, class, outputs, inputs the field-order rule emits exactly the
one out-of-order diagnostic for inputs, referencing outputs; and in
general the forward pass skips keys absent from the canonical order,
flags a key whose canonical index is below lastIndex without moving
lastIndex, and advances lastIndex on in-order keys. -/
theorem claims_C4 :
    (checkFieldOrder
        (JsValue.obj [("cwlVersion", JsValue.str "v1.0"),
                      ("class", JsValue.str "CommandLineTool"),
                      ("outputs", JsValue.arr []), ("inputs", JsValue.arr [])])
        "cwlVersion: v1.0\nclass: CommandLineTool\noutputs: []\ninputs: []" =
      Except.ok [⟨"Field \x27inputs\x27 is out of order. It should appear before \x27outputs\x27.",
                  3, 0⟩]) ∧
    (∀ order content f rest li, jsArrayIndexOf order f = none →
       fieldOrderLoop order content (f :: rest) li =
         fieldOrderLoop order content rest li) ∧
    (∀ order content f rest li ci, jsArrayIndexOf order f = some ci → (ci : Int) < li →
       fieldOrderLoop order content (f :: rest) li =
         outOfOrderDiag order content f li.toNat ::
           fieldOrderLoop order content rest li) ∧
    (∀ order content f rest li ci, jsArrayIndexOf order f = some ci → ¬(ci : Int) < li →
       fieldOrderLoop order content (f :: rest) li =
         fieldOrderLoop order content rest (ci : Int)) := by
  refine ⟨by decide, ?_, ?_, ?_⟩
  · intro order content f rest li h
    simp [fieldOrderLoop, h]
  · intro order content f rest li ci h hlt
    simp [fieldOrderLoop, h, hlt]
  · intro order content f rest li ci h hlt
    simp [fieldOrderLoop, h, hlt]

/-- Witness for C4: a key absent from the canonical order is skipped. -/
theorem claims_C4_witness :
    fieldOrderLoop ["cwlVersion", "class"] "" ("zzz" :: ["class"]) 0 =
      fieldOrderLoop ["cwlVersion", "class"] "" ["class"] 0 :=
  claims_C4.2.1 ["cwlVersion", "class"] "" "zzz" ["class"] 0 (by decide)

/-- Claim C5: with a structured mark, the editor engine's single
parse-failure diagnostic spans from the mark to the length of the marked
source line, or to column + 1 when that line is empty or unavailable. -/
theorem claims_C5 (content : String) (m : YamlMark) (reason : Option String)
    (message : String) :
    ∃ d, lintCWLDocumentCatch content ⟨some m, reason, message⟩ = [d] ∧
      d.range.startLine = m.line ∧ d.range.startCharacter = m.column ∧
      d.range.endLine = m.line ∧
      (∀ l, (splitLines content)[m.line]? = some l → l ≠ "" →
         d.range.endCharacter = l.length) ∧
      ((splitLines content)[m.line]? = none → d.range.endCharacter = m.column + 1) ∧
      ((splitLines content)[m.line]? = some "" → d.range.endCharacter = m.column + 1) := by
  cases hl : (splitLines content)[m.line]? with
  | none =>
    refine ⟨⟨"YAML parsing error: " ++ jsOrElse reason message,
             ⟨m.line, m.column, m.line, m.column + 1⟩⟩, ?_, rfl, rfl, rfl, ?_, ?_, ?_⟩
    · simp [lintCWLDocumentCatch, hl]
    · intro l hls
      exact absurd hls (by simp)
    · intro _
      rfl
    · intro hls
      exact absurd hls (by simp)
  | some l0 =>
    by_cases he : l0 = ""
    · subst he
      refine ⟨⟨"YAML parsing error: " ++ jsOrElse reason message,
               ⟨m.line, m.column, m.line, m.column + 1⟩⟩, ?_, rfl, rfl, rfl, ?_, ?_, ?_⟩
      · simp [lintCWLDocumentCatch, hl]
        rfl
      · intro l hls hne
        injection hls with h
        exact absurd h.symm hne
      · intro hnone
        exact Option.noConfusion hnone
      · intro _
        rfl
    · have hne : l0.isEmpty = false := by
        cases hemp : l0.isEmpty
        · rfl
        · exact absurd ((String.isEmpty_iff l0).mp hemp) he
      refine ⟨⟨"YAML parsing error: " ++ jsOrElse reason message,
               ⟨m.line, m.column, m.line, l0.length⟩⟩, ?_, rfl, rfl, rfl, ?_, ?_, ?_⟩
      · simp [lintCWLDocumentCatch, hl, hne]
      · intro l hls _
        injection hls with h
        rw [h]
      · intro hnone
        exact Option.noConfusion hnone
      · intro hls
        injection hls with h
        exact absurd h he

/-- Witness for C5: on a two-line text with the mark on the first line,
the end column is that line's length. -/
theorem claims_C5_witness :
    ∃ d, lintCWLDocumentCatch "ab\nc" ⟨some ⟨0, 0⟩, none, "boom"⟩ = [d] ∧
      d.range.endCharacter = 2 := by
  obtain ⟨d, hd, -, -, -, h5, -, -⟩ := claims_C5 "ab\nc" ⟨0, 0⟩ none "boom"
  refine ⟨d, hd, ?_⟩
  rw [h5 "ab" (by decide) (by decide)]
  rfl

/-- Claim C8: linting is deterministic — two runs of the engine on the
same text (and hence the same parse outcome) yield the same diagnostic
list. Determinism holds by construction: the engine is a pure function of
the parse outcome and the raw text. -/
theorem claims_C8 (o : ParseOutcome) (content : String) :
    lintCWLContent o content = lintCWLContent o content := rfl

/-- Claim C9: a document parsing to a null or undefined root yields
exactly one origin-anchored diagnostic whose message starts with
"YAML parsing error: " (the first rule's property access throws), not a
missing-cwlVersion diagnostic. -/
theorem claims_C9 (content : String) :
    lintCWLContent (ParseOutcome.ok JsValue.null) content =
      [⟨"YAML parsing error: " ++ "Cannot read properties of null (reading \x27cwlVersion\x27)",
        0, 0⟩] ∧
    lintCWLContent (ParseOutcome.ok JsValue.undefined) content =
      [⟨"YAML parsing error: " ++ "Cannot read properties of undefined (reading \x27cwlVersion\x27)",
        0, 0⟩] ∧
    "YAML parsing error: " ++ "Cannot read properties of null (reading \x27cwlVersion\x27)" ≠
      "Missing cwlVersion field" ∧
    "YAML parsing error: " ++ "Cannot read properties of undefined (reading \x27cwlVersion\x27)" ≠
      "Missing cwlVersion field" :=
  ⟨rfl, rfl, by decide, by decide⟩

/-- Whether a root has `key` as an own key (false on every non-object). -/
def jsHasKey (v : JsValue) (key : String) : Bool :=
  match v with
  | .obj fields => fields.any (fun kv => kv.1 == key)
  | _ => false

/-- The diagnostic predicate of claim C2: the message is exactly the
missing-version message. -/
def isMissingVersionMsg (d : Diagnostic) : Bool :=
  decide (d.message = "Missing cwlVersion field")

/-- Lookup of a key absent from an object literal yields `undefined`. -/
theorem jsLookup_of_no_key (fields : List (String × JsValue)) (key : String)
    (h : fields.any (fun kv => kv.1 == key) = false) :
    jsLookup fields key = JsValue.undefined := by
  induction fields with
  | nil => rfl
  | cons kv rest ih =>
    rw [List.any_cons, Bool.or_eq_false_iff] at h
    obtain ⟨k, v⟩ := kv
    simp only [jsLookup, h.1]
    simp only [Bool.false_eq_true, if_false]
    exact ih h.2

/-- Property access on a root that is neither null nor undefined and has
no such own key yields `undefined` without throwing. -/
theorem getProp_of_no_key (doc : JsValue) (key : String)
    (h1 : doc ≠ JsValue.null) (h2 : doc ≠ JsValue.undefined)
    (h3 : jsHasKey doc key = false) :
    getProp doc key = Except.ok JsValue.undefined := by
  cases doc with
  | null => exact absurd rfl h1
  | undefined => exact absurd rfl h2
  | obj fields =>
    have := jsLookup_of_no_key fields key (by simpa [jsHasKey] using h3)
    simp [getProp, this]
  | bool b => rfl
  | num n => rfl
  | str s => rfl
  | arr xs => rfl

/-- `checkVersion` on a document whose `cwlVersion` reads as `undefined`
emits exactly the missing-version diagnostic. -/
theorem checkVersion_missing (doc : JsValue) (content : String)
    (h : getProp doc "cwlVersion" = Except.ok JsValue.undefined) :
    checkVersion doc content =
      Except.ok [⟨"Missing cwlVersion field",
        (findFieldPosition content "cwlVersion" "").line,
        (findFieldPosition content "cwlVersion" "").character⟩] := by
  simp [checkVersion, h, truthy]

/-- `checkClass` never emits the missing-version message. -/
theorem checkClass_count (doc : JsValue) (content : String) (ds : List Diagnostic)
    (h : checkClass doc content = Except.ok ds) :
    ds.countP isMissingVersionMsg = 0 := by
  unfold checkClass at h
  split at h
  · exact Except.noConfusion h
  · split at h
    · injection h with h'
      subst h'
      rfl
    · split at h
      · injection h with h'
        subst h'
        rfl
      · injection h with h'
        subst h'
        rfl

/-- `checkInputs` never emits the missing-version message. -/
theorem checkInputs_count (doc : JsValue) (content : String) (ds : List Diagnostic)
    (h : checkInputs doc content = Except.ok ds) :
    ds.countP isMissingVersionMsg = 0 := by
  unfold checkInputs at h
  split at h
  · exact Except.noConfusion h
  · split at h
    · injection h with h'
      subst h'
      rfl
    · injection h with h'
      subst h'
      rfl

/-- The field-order loop never emits the missing-version message. -/
theorem fieldOrderLoop_count (order : List String) (content : String) :
    ∀ (fields : List String) (li : Int),
      (fieldOrderLoop order content fields li).countP isMissingVersionMsg = 0 := by
  intro fields
  induction fields with
  | nil => intro li; rfl
  | cons f rest ih =>
    intro li
    cases hidx : jsArrayIndexOf order f with
    | none => simp [fieldOrderLoop, hidx, ih]
    | some ci =>
      by_cases hlt : (ci : Int) < li
      · have hmsg : isMissingVersionMsg (outOfOrderDiag order content f li.toNat) = false := by
          unfold isMissingVersionMsg outOfOrderDiag
          exact decide_eq_false (wrapNe2 _ _ _ _ _ _ (by decide))
        simp [fieldOrderLoop, hidx, hlt, List.countP_cons, hmsg, ih]
      · simp [fieldOrderLoop, hidx, hlt, ih]

/-- `checkFieldOrder` never emits the missing-version message. -/
theorem checkFieldOrder_count (doc : JsValue) (content : String) (ds : List Diagnostic)
    (h : checkFieldOrder doc content = Except.ok ds) :
    ds.countP isMissingVersionMsg = 0 := by
  unfold checkFieldOrder at h
  split at h
  · exact Except.noConfusion h
  · split at h
    · injection h with h'
      subst h'
      rfl
    · split at h
      · exact Except.noConfusion h
      · injection h with h'
        subst h'
        exact fieldOrderLoop_count _ _ _ _

/-- The blank-line checks at one line never emit the missing-version
message. -/
theorem blankDiagsAt_count (lines : List String) (i : Nat) :
    (blankDiagsAt lines i).countP isMissingVersionMsg = 0 := by
  unfold blankDiagsAt
  cases htf : topFieldMatch (lines.getD i "") with
  | none => rfl
  | some f =>
    have hm1 : isMissingVersionMsg ⟨moreThanOneBlankMsg f, i, 0⟩ = false := by
      unfold isMissingVersionMsg moreThanOneBlankMsg
      exact decide_eq_false (wrapNe _ _ _ _ (by decide))
    have hm2 : isMissingVersionMsg ⟨missingBlankMsg f, i, 0⟩ = false := by
      unfold isMissingVersionMsg missingBlankMsg
      exact decide_eq_false (wrapNe _ _ _ _ (by decide))
    rw [List.countP_append]
    split <;> split <;> simp [List.countP_cons, hm1, hm2]

/-- The blank-line rule never emits the missing-version message. -/
theorem blankLineDiags_count (content : String) :
    (blankLineDiags content).countP isMissingVersionMsg = 0 := by
  unfold blankLineDiags
  rw [List.countP_eq_zero]
  intro d hd
  rw [List.mem_flatMap] at hd
  obtain ⟨i, -, hdi⟩ := hd
  have hz := blankDiagsAt_count (splitLines content) i
  rw [List.countP_eq_zero] at hz
  exact hz d hdi

/-- The workflow-input loop never emits the missing-version message. -/
theorem wfInputLoop_count (lines : List String) :
    ∀ (entries : List (String × JsValue)) (ds : List Diagnostic),
      wfInputLoop lines entries = Except.ok ds →
      ds.countP isMissingVersionMsg = 0 := by
  intro entries
  induction entries with
  | nil =>
    intro ds h
    injection h with h'
    subst h'
    rfl
  | cons kv rest ih =>
    intro ds h
    obtain ⟨k, v⟩ := kv
    unfold wfInputLoop at h
    split at h
    · exact ih ds h
    · split at h
      · exact ih ds h
      · split at h
        · exact Except.noConfusion h
        · split at h
          · exact Except.noConfusion h
          · split at h
            · exact Except.noConfusion h
            · rename_i ds' hds'
              injection h with h'
              subst h'
              have hm1 : ∀ b : Nat, isMissingVersionMsg ⟨missingLabelMsg k, b, 0⟩ = false := by
                intro b
                unfold isMissingVersionMsg missingLabelMsg
                exact decide_eq_false (wrapNe _ _ _ _ (by decide))
              have hm2 : ∀ b : Nat, isMissingVersionMsg ⟨missingDocMsg k, b, 0⟩ = false := by
                intro b
                unfold isMissingVersionMsg missingDocMsg
                exact decide_eq_false (wrapNe _ _ _ _ (by decide))
              rw [List.countP_append, List.countP_append]
              have hrest := ih ds' hds'
              split <;> split <;> simp [List.countP_cons, hm1, hm2, hrest]

/-- `checkWorkflowInputMetadata` never emits the missing-version message. -/
theorem checkWorkflowInputMetadata_count (doc : JsValue) (content : String)
    (ds : List Diagnostic)
    (h : checkWorkflowInputMetadata doc content = Except.ok ds) :
    ds.countP isMissingVersionMsg = 0 := by
  unfold checkWorkflowInputMetadata at h
  split at h
  · exact Except.noConfusion h
  · split at h
    · injection h with h'
      subst h'
      rfl
    · split at h
      · exact Except.noConfusion h
      · split at h
        · injection h with h'
          subst h'
          rfl
        · split at h
          · exact Except.noConfusion h
          · exact wfInputLoop_count _ _ _ h

/-- `runRules` over rules that never emit the missing-version message
yields a list without it. -/
theorem runRules_count (rs : List Rule) (doc : JsValue) (content : String)
    (h : ∀ r ∈ rs, ∀ ds, r doc content = Except.ok ds →
           ds.countP isMissingVersionMsg = 0) :
    ((runRules rs doc content).1).countP isMissingVersionMsg = 0 := by
  induction rs with
  | nil => rfl
  | cons r rest ih =>
    cases hr : r doc content with
    | error e => simp [runRules, hr]
    | ok ds =>
      have h1 := h r (List.mem_cons_self r rest) ds hr
      have h2 := ih (fun r' hr' => h r' (List.mem_cons_of_mem r hr'))
      simp [runRules, hr, List.countP_append, h1, h2]

/-- Claim C2 (amended): for every document whose parsed root is neither
null nor undefined and lacks a cwlVersion key, the engine returns exactly
one diagnostic with message "Missing cwlVersion field"; and on the input
"class: Workflow\n" (root parses to the singleton mapping) the result is
exactly that diagnostic at the origin, with no field-order or blank-line
diagnostic. Null or undefined roots are excluded: there the first rule's
property access throws (see the C9 theorem). -/
theorem claims_C2 :
    (∀ (doc : JsValue) (content : String), doc ≠ JsValue.null → doc ≠ JsValue.undefined →
       jsHasKey doc "cwlVersion" = false →
       (lintCWLContent (ParseOutcome.ok doc) content).countP isMissingVersionMsg = 1) ∧
    lintCWLContent (ParseOutcome.ok (JsValue.obj [("class", JsValue.str "Workflow")]))
        "class: Workflow\n" = [⟨"Missing cwlVersion field", 0, 0⟩] := by
  constructor
  · intro doc content h1 h2 h3
    have hget := getProp_of_no_key doc "cwlVersion" h1 h2 h3
    have hv := checkVersion_missing doc content hget
    have htail : ((runRules [checkClass, checkInputs, checkFieldOrder, checkBlankLines,
        checkWorkflowInputMetadata] doc content).1).countP isMissingVersionMsg = 0 := by
      apply runRules_count
      intro r hr ds hds
      simp only [List.mem_cons, List.not_mem_nil, or_false] at hr
      rcases hr with rfl | rfl | rfl | rfl | rfl
      · exact checkClass_count doc content ds hds
      · exact checkInputs_count doc content ds hds
      · exact checkFieldOrder_count doc content ds hds
      · injection hds with h'
        subst h'
        exact blankLineDiags_count content
      · exact checkWorkflowInputMetadata_count doc content ds hds
    have hd0 : List.countP isMissingVersionMsg
        [⟨"Missing cwlVersion field",
          (findFieldPosition content "cwlVersion" "").line,
          (findFieldPosition content "cwlVersion" "").character⟩] = 1 := by
      simp [List.countP_cons, isMissingVersionMsg]
    have hrun : runRules ruleList doc content =
        ([⟨"Missing cwlVersion field",
           (findFieldPosition content "cwlVersion" "").line,
           (findFieldPosition content "cwlVersion" "").character⟩] ++
           (runRules [checkClass, checkInputs, checkFieldOrder, checkBlankLines,
             checkWorkflowInputMetadata] doc content).1,
         (runRules [checkClass, checkInputs, checkFieldOrder, checkBlankLines,
             checkWorkflowInputMetadata] doc content).2) := by
      simp only [ruleList, runRules, hv]
    cases herr : (runRules [checkClass, checkInputs, checkFieldOrder, checkBlankLines,
        checkWorkflowInputMetadata] doc content).2 with
    | none =>
      have hstep : lintCWLContent (ParseOutcome.ok doc) content =
          (match runRules ruleList doc content with
           | (ds, none) => ds
           | (ds, some e) => ds ++ [catchDiag ⟨none, none, e⟩]) := rfl
      have hlint : lintCWLContent (ParseOutcome.ok doc) content =
          [⟨"Missing cwlVersion field",
            (findFieldPosition content "cwlVersion" "").line,
            (findFieldPosition content "cwlVersion" "").character⟩] ++
            (runRules [checkClass, checkInputs, checkFieldOrder, checkBlankLines,
              checkWorkflowInputMetadata] doc content).1 := by
        rw [hstep, hrun, herr]
      rw [hlint, List.countP_append, hd0, htail]
    | some e =>
      have hcatch : List.countP isMissingVersionMsg [catchDiag ⟨none, none, e⟩] = 0 := by
        have hq : isMissingVersionMsg (catchDiag ⟨none, none, e⟩) = false := by
          unfold isMissingVersionMsg catchDiag
          exact decide_eq_false (yamlPrefixNeMissing e)
        simp [List.countP_cons, hq]
      have hstep : lintCWLContent (ParseOutcome.ok doc) content =
          (match runRules ruleList doc content with
           | (ds, none) => ds
           | (ds, some e) => ds ++ [catchDiag ⟨none, none, e⟩]) := rfl
      have hlint : lintCWLContent (ParseOutcome.ok doc) content =
          ([⟨"Missing cwlVersion field",
            (findFieldPosition content "cwlVersion" "").line,
            (findFieldPosition content "cwlVersion" "").character⟩] ++
            (runRules [checkClass, checkInputs, checkFieldOrder, checkBlankLines,
              checkWorkflowInputMetadata] doc content).1) ++ [catchDiag ⟨none, none, e⟩] := by
        rw [hstep, hrun, herr]
      rw [hlint, List.countP_append, List.countP_append, hd0, htail, hcatch]
  · decide

/-- Witness for C2: the root parsed from "class: Workflow\n" is an object
without the cwlVersion key, and linting yields exactly one
missing-version diagnostic. -/
theorem claims_C2_witness :
    (lintCWLContent (ParseOutcome.ok (JsValue.obj [("class", JsValue.str "Workflow")]))
        "class: Workflow\n").countP isMissingVersionMsg = 1 :=
  claims_C2.1 (JsValue.obj [("class", JsValue.str "Workflow")]) "class: Workflow\n"
    (fun h => JsValue.noConfusion h) (fun h => JsValue.noConfusion h) (by decide)

/-- Counterexample to C2 as stated: the empty input parses successfully
(to `undefined`), its root has no cwlVersion key, yet the engine returns
a parse-error-style diagnostic and no missing-version diagnostic: the
first rule's property access on the undefined root throws. -/
theorem claims_C2_cex :
    lintCWLContent (ParseOutcome.ok JsValue.undefined) "" =
      [⟨"YAML parsing error: " ++
          "Cannot read properties of undefined (reading \x27cwlVersion\x27)", 0, 0⟩] ∧
    (lintCWLContent (ParseOutcome.ok JsValue.undefined) "").countP isMissingVersionMsg = 0 :=
  ⟨rfl, rfl⟩

/-- Claim C3 (amended): for every document whose class property reads
without throwing: a falsy class value (in particular an absent key, but
also null, false, 0 or the empty string) makes the class rule emit
"Missing class field", and a truthy value that is not a string in the
exact set Workflow/CommandLineTool/ExpressionTool makes it emit the
invalid-class diagnostic — both anchored at the position resolver's
location for "class". -/
theorem claims_C3 (doc : JsValue) (content : String) (v : JsValue)
    (hget : getProp doc "class" = Except.ok v) :
    (truthy v = false →
       checkClass doc content =
         Except.ok [⟨"Missing class field",
           (findFieldPosition content "class" "").line,
           (findFieldPosition content "class" "").character⟩]) ∧
    (truthy v = true →
       jsIncludesStr ["Workflow", "CommandLineTool", "ExpressionTool"] v = false →
       checkClass doc content =
         Except.ok [⟨"Invalid class value. Must be one of: Workflow, CommandLineTool, ExpressionTool",
           (findFieldPosition content "class" "").line,
           (findFieldPosition content "class" "").character⟩]) := by
  constructor
  · intro ht
    simp [checkClass, hget, ht]
  · intro ht hi
    simp [checkClass, hget, ht, hi]

/-- Witness for C3: an empty mapping root has a falsy (undefined) class
and gets the missing-class diagnostic; a root with class 42 (truthy, not
in the set) gets the invalid-class diagnostic. -/
theorem claims_C3_witness :
    checkClass (JsValue.obj []) "" =
      Except.ok [⟨"Missing class field",
        (findFieldPosition "" "class" "").line,
        (findFieldPosition "" "class" "").character⟩] ∧
    checkClass (JsValue.obj [("class", JsValue.num 42)]) "" =
      Except.ok [⟨"Invalid class value. Must be one of: Workflow, CommandLineTool, ExpressionTool",
        (findFieldPosition "" "class" "").line,
        (findFieldPosition "" "class" "").character⟩] :=
  ⟨(claims_C3 (JsValue.obj []) "" JsValue.undefined rfl).1 (by decide),
   (claims_C3 (JsValue.obj [("class", JsValue.num 42)]) "" (JsValue.num 42) rfl).2
     (by decide) (by decide)⟩

/-- Counterexample to C3 as stated: the document "class: null" has a
class key whose value (null) is outside the exact set, so the claim
predicts the invalid-class diagnostic, but null is falsy and the rule
emits "Missing class field" instead. -/
theorem claims_C3_cex :
    checkClass (JsValue.obj [("class", JsValue.null)]) "class:" =
      Except.ok [⟨"Missing class field", 0, 0⟩] ∧
    ("Missing class field" : String) ≠
      "Invalid class value. Must be one of: Workflow, CommandLineTool, ExpressionTool" := by
  constructor
  · decide
  · decide

/-- Claim C6 (amended): whenever line i (i ≥ 2) matches the top-level
field pattern and lines i-1 and i-2 are both whitespace-only, the
blank-line rule emits the more-than-one-blank-line diagnostic for that
field — anchored at line i, column 0 (the library rule anchors at the
matched line itself; only the editor variant starts its range at line
i-1). -/
theorem claims_C6 (doc : JsValue) (content : String) (i : Nat) (f : String)
    (h2 : 2 ≤ i) (hlen : i < (splitLines content).length)
    (htf : topFieldMatch ((splitLines content).getD i "") = some f)
    (hb1 : isBlankStr ((splitLines content).getD (i - 1) "") = true)
    (hb2 : isBlankStr ((splitLines content).getD (i - 2) "") = true) :
    checkBlankLines doc content = Except.ok (blankLineDiags content) ∧
    (⟨moreThanOneBlankMsg f, i, 0⟩ : Diagnostic) ∈ blankLineDiags content := by
  refine ⟨rfl, ?_⟩
  unfold blankLineDiags
  rw [List.mem_flatMap]
  refine ⟨i, ?_, ?_⟩
  · rw [List.mem_range'_1]
    omega
  · unfold blankDiagsAt
    rw [htf, hb1, hb2]
    simp [h2]

/-- Witness for C6: in "a: 1\n\n\nb: 2" the field at line 3 follows two
blank lines, and the rule's diagnostic for it sits at line 3. -/
theorem claims_C6_witness :
    checkBlankLines (JsValue.obj []) "a: 1\n\n\nb: 2" =
      Except.ok (blankLineDiags "a: 1\n\n\nb: 2") ∧
    (⟨moreThanOneBlankMsg "b", 3, 0⟩ : Diagnostic) ∈ blankLineDiags "a: 1\n\n\nb: 2" :=
  claims_C6 (JsValue.obj []) "a: 1\n\n\nb: 2" 3 "b" (by decide) (by decide) (by decide)
    (by decide) (by decide)

/-- Counterexample to C6 as stated: for "a: 1\n\n\nb: 2" the rule's only
diagnostic is anchored at line 3 (the matched field line), and no
diagnostic sits at the claimed line i-1 = 2. -/
theorem claims_C6_cex :
    blankLineDiags "a: 1\n\n\nb: 2" = [⟨moreThanOneBlankMsg "b", 3, 0⟩] ∧
    (∀ d ∈ blankLineDiags "a: 1\n\n\nb: 2", d.line ≠ 2) := by
  constructor
  · decide
  · decide

/-- One scan position qualifies when the constructed pattern matches the
line and, if a parent context is required, the backward scan finds it —
the exact acceptance condition of `findFieldPosition`. -/
def ffpQualifies (fieldName parentContext : String) (lines : List String) (i : Nat) : Bool :=
  lineMatchesField fieldName (lines.getD i "") &&
    (parentContext.isEmpty || ffpCtxFound lines parentContext i)

/-- The pattern matches no empty line (there is no colon to consume). -/
theorem lineMatchesField_empty (f : String) : lineMatchesField f "" = false := by
  unfold lineMatchesField
  split
  · rfl
  · have h : ("" : String).data.dropWhile jsIsSpace = [] := rfl
    rw [h]
    have h2 : ∀ n : Nat, ((List.drop n ([] : List Char)).head? == some ':') = false := by
      intro n
      rw [List.drop_nil]
      rfl
    simp [h2]

/-- Positions beyond the line list never qualify. -/
theorem ffpQualifies_oob (f ctx : String) (lines : List String) (i : Nat)
    (h : lines.length ≤ i) : ffpQualifies f ctx lines i = false := by
  unfold ffpQualifies
  rw [List.getD_eq_default _ _ h, lineMatchesField_empty, Bool.false_and]

/-- When no position from `i` on qualifies, the scan loop falls through
to the origin. -/
theorem ffpLoop_not_found (f ctx : String) (allLines : List String) :
    ∀ (rest : List String) (i : Nat), rest = allLines.drop i →
      (∀ j, i ≤ j → ffpQualifies f ctx allLines j = false) →
      ffpLoop f ctx allLines rest i = ⟨0, 0⟩ := by
  intro rest
  induction rest with
  | nil =>
    intro i _ _
    rfl
  | cons line rest' ih =>
    intro i hdrop hq
    have hget : allLines[i]? = some line := by
      rw [← List.head?_drop, ← hdrop]
      rfl
    have hline : allLines.getD i "" = line := by
      rw [List.getD_eq_getElem?_getD, hget]
      rfl
    have hdrop' : rest' = allLines.drop (i + 1) := by
      have h1 : allLines.drop (i + 1) = (allLines.drop i).tail := by
        rw [← List.drop_one, List.drop_drop]
      rw [h1, ← hdrop]
      rfl
    have hstep := ih (i + 1) hdrop' (fun j hj => hq j (by omega))
    have hqi := hq i le_rfl
    unfold ffpQualifies at hqi
    rw [hline] at hqi
    cases hm : lineMatchesField f line with
    | false =>
      unfold ffpLoop
      rw [hm]
      simpa using hstep
    | true =>
      rw [hm, Bool.true_and, Bool.or_eq_false_iff] at hqi
      unfold ffpLoop
      simp only [hm, hqi.1, hqi.2]
      simpa using hstep

/-- When `i0` is the first qualifying position at or after `i`, the scan
loop returns it together with the substring-search column. -/
theorem ffpLoop_found (f ctx : String) (allLines : List String) (i0 : Nat)
    (hq0 : ffpQualifies f ctx allLines i0 = true) :
    ∀ (rest : List String) (i : Nat), rest = allLines.drop i → i ≤ i0 →
      (∀ j, i ≤ j → j < i0 → ffpQualifies f ctx allLines j = false) →
      ffpLoop f ctx allLines rest i =
        ⟨i0, (jsSubstrIndex (allLines.getD i0 "").data f.data).getD 0⟩ := by
  intro rest
  induction rest with
  | nil =>
    intro i hdrop hle _
    exfalso
    have hlen : allLines.length ≤ i := by
      have hl := congrArg List.length hdrop
      rw [List.length_drop] at hl
      simp at hl
      omega
    rw [ffpQualifies_oob f ctx allLines i0 (le_trans hlen hle)] at hq0
    exact Bool.noConfusion hq0
  | cons line rest' ih =>
    intro i hdrop hle hmin
    have hget : allLines[i]? = some line := by
      rw [← List.head?_drop, ← hdrop]
      rfl
    have hline : allLines.getD i "" = line := by
      rw [List.getD_eq_getElem?_getD, hget]
      rfl
    have hdrop' : rest' = allLines.drop (i + 1) := by
      have h1 : allLines.drop (i + 1) = (allLines.drop i).tail := by
        rw [← List.drop_one, List.drop_drop]
      rw [h1, ← hdrop]
      rfl
    rcases Nat.lt_or_ge i i0 with hlt | hge
    · have hqi := hmin i le_rfl hlt
      unfold ffpQualifies at hqi
      rw [hline] at hqi
      have hstep := ih (i + 1) hdrop' (by omega)
        (fun j hj hj2 => hmin j (by omega) hj2)
      cases hm : lineMatchesField f line with
      | false =>
        unfold ffpLoop
        rw [hm]
        simpa using hstep
      | true =>
        rw [hm, Bool.true_and, Bool.or_eq_false_iff] at hqi
        unfold ffpLoop
        simp only [hm, hqi.1, hqi.2]
        simpa using hstep
    · have hi : i = i0 := Nat.le_antisymm hle hge
      subst hi
      unfold ffpQualifies at hq0
      rw [hline, Bool.and_eq_true] at hq0
      unfold ffpLoop
      rw [hline]
      cases hemp : ctx.isEmpty with
      | true => simp [hq0.1, hemp]
      | false =>
        have hctx : ffpCtxFound allLines ctx i = true := by
          have h2 := hq0.2
          rw [hemp, Bool.false_or] at h2
          exact h2
        simp [hq0.1, hemp, hctx]

/-- A needle that is a prefix of some suffix-after-dropWhile occurs in
the haystack. -/
theorem substrIndex_isSome_of_prefix_dropWhile :
    ∀ (l n : List Char) (p : Char → Bool), n.isPrefixOf (l.dropWhile p) = true →
      (jsSubstrIndex l n).isSome = true := by
  intro l
  induction l with
  | nil =>
    intro n p h
    cases n with
    | nil => rfl
    | cons c t => exact Bool.noConfusion h
  | cons c t ih =>
    intro n p h
    unfold jsSubstrIndex
    by_cases hp : n.isPrefixOf (c :: t) = true
    · rw [hp]
      rfl
    · rw [Bool.not_eq_true] at hp
      rw [hp]
      simp only [Bool.false_eq_true, if_false]
      rw [List.dropWhile_cons] at h
      cases hc : p c with
      | false =>
        rw [hc] at h
        simp only [Bool.false_eq_true, if_false] at h
        rw [h] at hp
        exact Bool.noConfusion hp
      | true =>
        rw [hc] at h
        simp only [if_true] at h
        have hsome := ih n p h
        obtain ⟨a, ha⟩ := Option.isSome_iff_exists.mp hsome
        rw [ha]
        rfl

/-- A matched line contains the field name as a substring. -/
theorem substrIndex_isSome_of_matches (f line : String)
    (h : lineMatchesField f line = true) :
    (jsSubstrIndex line.data f.data).isSome = true := by
  unfold lineMatchesField at h
  split at h
  · exact Bool.noConfusion h
  · rw [Bool.and_eq_true] at h
    exact substrIndex_isSome_of_prefix_dropWhile line.data f.data jsIsSpace h.1

/-- Claim C7 (amended): for every text and optional parent context and
every field name, the resolver totally returns a SourcePosition; when no
position qualifies it returns the origin; when some position qualifies it
returns the least qualifying line index together with the column of the
field name's first occurrence on that line (plain substring search) —
except that a field name containing a dollar character (for example
$namespaces) turns the interpolated dollar into an end anchor of the
constructed regex, so no line ever matches and the resolver returns the
origin regardless of the text. -/
theorem claims_C7 :
    (∀ content f ctx, ∃ p, findFieldPosition content f ctx = p) ∧
    (∀ content f ctx,
       (∀ i, i < (splitLines content).length →
          ffpQualifies f ctx (splitLines content) i = false) →
       findFieldPosition content f ctx = ⟨0, 0⟩) ∧
    (∀ content f ctx i0, ffpQualifies f ctx (splitLines content) i0 = true →
       (∀ j, j < i0 → ffpQualifies f ctx (splitLines content) j = false) →
       ∃ c, jsSubstrIndex ((splitLines content).getD i0 "").data f.data = some c ∧
         findFieldPosition content f ctx = ⟨i0, c⟩) ∧
    (∀ content f ctx, f.data.contains '$' = true →
       findFieldPosition content f ctx = ⟨0, 0⟩) := by
  have hnf : ∀ content f ctx,
      (∀ i, i < (splitLines content).length →
         ffpQualifies f ctx (splitLines content) i = false) →
      findFieldPosition content f ctx = ⟨0, 0⟩ := by
    intro content f ctx h
    unfold findFieldPosition
    apply ffpLoop_not_found f ctx (splitLines content) (splitLines content) 0 rfl
    intro j _
    rcases Nat.lt_or_ge j (splitLines content).length with hj | hj
    · exact h j hj
    · exact ffpQualifies_oob f ctx (splitLines content) j hj
  refine ⟨fun content f ctx => ⟨_, rfl⟩, hnf, ?_, ?_⟩
  · intro content f ctx i0 hq0 hmin
    have hm : lineMatchesField f ((splitLines content).getD i0 "") = true := by
      have hq := hq0
      unfold ffpQualifies at hq
      rw [Bool.and_eq_true] at hq
      exact hq.1
    have hsome := substrIndex_isSome_of_matches f ((splitLines content).getD i0 "") hm
    obtain ⟨c, hc⟩ := Option.isSome_iff_exists.mp hsome
    refine ⟨c, hc, ?_⟩
    have hloop := ffpLoop_found f ctx (splitLines content) i0 hq0 (splitLines content) 0 rfl
      (Nat.zero_le i0) (fun j _ hj2 => hmin j hj2)
    unfold findFieldPosition
    rw [hloop, hc]
    rfl
  · intro content f ctx hd
    apply hnf
    intro i _
    unfold ffpQualifies
    have hm : lineMatchesField f ((splitLines content).getD i "") = false := by
      unfold lineMatchesField
      rw [hd]
      simp
    rw [hm, Bool.false_and]

/-- Witness for C7: in "foo: 1\n  bar: 2" the field bar first qualifies
at line 1, and the resolver returns line 1 with the substring column 2
(the indentation offset). -/
theorem claims_C7_witness :
    ∃ c, jsSubstrIndex ((splitLines "foo: 1\n  bar: 2").getD 1 "").data
        ("bar" : String).data = some c ∧
      findFieldPosition "foo: 1\n  bar: 2" "bar" "" = ⟨1, c⟩ :=
  claims_C7.2.2.1 "foo: 1\n  bar: 2" "bar" "" 1 (by decide) (by decide)

/-- A line matcher that follows the spec's words for the resolver: the
line matches `^\s*<fieldName>:` with the field name taken literally. -/
def specLineMatchesLiteral (fieldName line : String) : Bool :=
  let afterWs := line.data.dropWhile jsIsSpace
  fieldName.data.isPrefixOf afterWs &&
    ((afterWs.drop fieldName.data.length).head? == some ':')

/-- Counterexample to C7 as stated: for the text "x: 1\n$namespaces: y"
and the field name $namespaces, line 1 qualifies under the spec's literal
reading (and line 0 does not), so the claim requires position line 1,
column 0; the code's interpolated regex treats the dollar as an anchor,
never matches, and findFieldPosition returns the origin instead. -/
theorem claims_C7_cex :
    findFieldPosition "x: 1\n$namespaces: y" "$namespaces" "" = ⟨0, 0⟩ ∧
    specLineMatchesLiteral "$namespaces"
      ((splitLines "x: 1\n$namespaces: y").getD 1 "") = true ∧
    specLineMatchesLiteral "$namespaces"
      ((splitLines "x: 1\n$namespaces: y").getD 0 "") = false ∧
    (⟨0, 0⟩ : SourcePosition) ≠ ⟨1, 0⟩ :=
  ⟨by decide, by decide, by decide, by decide⟩

/-- `checkVersion` cannot throw on an object root. -/
theorem checkVersion_ok_obj (fields : List (String × JsValue)) (content : String) :
    ∃ ds, checkVersion (JsValue.obj fields) content = Except.ok ds := by
  unfold checkVersion
  split
  · rename_i e heq
    simp [getProp] at heq
  · split
    · exact ⟨_, rfl⟩
    · exact ⟨_, rfl⟩

/-- `checkClass` cannot throw on an object root. -/
theorem checkClass_ok_obj (fields : List (String × JsValue)) (content : String) :
    ∃ ds, checkClass (JsValue.obj fields) content = Except.ok ds := by
  unfold checkClass
  split
  · rename_i e heq
    simp [getProp] at heq
  · split
    · exact ⟨_, rfl⟩
    · split
      · exact ⟨_, rfl⟩
      · exact ⟨_, rfl⟩

/-- `checkInputs` cannot throw on an object root. -/
theorem checkInputs_ok_obj (fields : List (String × JsValue)) (content : String) :
    ∃ ds, checkInputs (JsValue.obj fields) content = Except.ok ds := by
  unfold checkInputs
  split
  · rename_i e heq
    simp [getProp] at heq
  · split
    · exact ⟨_, rfl⟩
    · exact ⟨_, rfl⟩

/-- `checkFieldOrder` cannot throw on an object root. -/
theorem checkFieldOrder_ok_obj (fields : List (String × JsValue)) (content : String) :
    ∃ ds, checkFieldOrder (JsValue.obj fields) content = Except.ok ds := by
  unfold checkFieldOrder
  split
  · rename_i e heq
    simp [getProp] at heq
  · split
    · exact ⟨_, rfl⟩
    · split
      · rename_i e heq
        simp [objectKeys] at heq
      · exact ⟨_, rfl⟩

/-- The workflow-input loop throws the in-operator TypeError as soon as
it reaches a null-valued entry whose key anchors to a line; any earlier
entry either steps or throws the same error. -/
theorem wfInputLoop_error (lines : List String) :
    ∀ (entries : List (String × JsValue)) (k : String),
      (k, JsValue.null) ∈ entries →
      (lines.findIdx? (fun line => lineMatchesField k line)).isSome = true →
      wfInputLoop lines entries =
        Except.error "Cannot use \x27in\x27 operator to search for \x27label\x27 in null" := by
  intro entries
  induction entries with
  | nil =>
    intro k hk _
    exact absurd hk (List.not_mem_nil _)
  | cons kv rest ih =>
    intro k hk hanch
    obtain ⟨k0, v0⟩ := kv
    rcases List.mem_cons.mp hk with heq | hmem
    · cases heq
      obtain ⟨b, hb⟩ := Option.isSome_iff_exists.mp hanch
      unfold wfInputLoop
      rw [hb]
      rfl
    · have hstep := ih k hmem hanch
      unfold wfInputLoop
      cases hto : typeofIsObject v0 with
      | false => exact hstep
      | true =>
        cases hf : lines.findIdx? (fun line => lineMatchesField k0 line) with
        | none => exact hstep
        | some b =>
          cases v0 with
          | null => rfl
          | arr xs =>
            rw [hstep]
            rfl
          | obj fs =>
            rw [hstep]
            rfl
          | undefined => exact Bool.noConfusion hto
          | bool b0 => exact Bool.noConfusion hto
          | num n0 => exact Bool.noConfusion hto
          | str s0 => exact Bool.noConfusion hto

/-- `checkWorkflowInputMetadata` throws the in-operator TypeError on a
Workflow document whose inputs mapping has an anchored null entry. -/
theorem checkWF_error (fields entries : List (String × JsValue)) (content : String)
    (k : String)
    (hcls : jsLookup fields "class" = JsValue.str "Workflow")
    (hinp : jsLookup fields "inputs" = JsValue.obj entries)
    (hmem : (k, JsValue.null) ∈ entries)
    (hanch : ((splitLines content).findIdx?
        (fun line => lineMatchesField k line)).isSome = true) :
    checkWorkflowInputMetadata (JsValue.obj fields) content =
      Except.error "Cannot use \x27in\x27 operator to search for \x27label\x27 in null" := by
  have h1 : getProp (JsValue.obj fields) "class" = Except.ok (JsValue.str "Workflow") := by
    simp [getProp, hcls]
  have h2 : getProp (JsValue.obj fields) "inputs" = Except.ok (JsValue.obj entries) := by
    simp [getProp, hinp]
  unfold checkWorkflowInputMetadata
  rw [h1, h2]
  exact wfInputLoop_error (splitLines content) entries k hmem hanch

/-- Claim C10 (amended): for every Workflow document whose inputs mapping
has a null-valued entry whose key anchors to some line of the text (the
findIndex guard passes), the workflow-input-metadata rule throws on the
in-operator test, and the engine appends the converted diagnostic after
the diagnostics of the five earlier rules. A null entry whose key anchors
to no line is skipped by the findIndex guard before the in test and does
not throw. -/
theorem claims_C10 (fields entries : List (String × JsValue)) (content : String)
    (k : String)
    (hcls : jsLookup fields "class" = JsValue.str "Workflow")
    (hinp : jsLookup fields "inputs" = JsValue.obj entries)
    (hmem : (k, JsValue.null) ∈ entries)
    (hanch : ((splitLines content).findIdx?
        (fun line => lineMatchesField k line)).isSome = true) :
    ∃ ds, lintCWLContent (ParseOutcome.ok (JsValue.obj fields)) content =
        ds ++ [⟨"YAML parsing error: " ++
          "Cannot use \x27in\x27 operator to search for \x27label\x27 in null", 0, 0⟩] ∧
      runRules (ruleList.take 5) (JsValue.obj fields) content = (ds, none) := by
  obtain ⟨d1, h1⟩ := checkVersion_ok_obj fields content
  obtain ⟨d2, h2⟩ := checkClass_ok_obj fields content
  obtain ⟨d3, h3⟩ := checkInputs_ok_obj fields content
  obtain ⟨d4, h4⟩ := checkFieldOrder_ok_obj fields content
  have h5 : checkBlankLines (JsValue.obj fields) content =
      Except.ok (blankLineDiags content) := rfl
  have h6 := checkWF_error fields entries content k hcls hinp hmem hanch
  refine ⟨d1 ++ (d2 ++ (d3 ++ (d4 ++ blankLineDiags content))), ?_, ?_⟩
  · have hrun : runRules ruleList (JsValue.obj fields) content =
        (d1 ++ (d2 ++ (d3 ++ (d4 ++ blankLineDiags content))),
         some "Cannot use \x27in\x27 operator to search for \x27label\x27 in null") := by
      simp only [ruleList, runRules, h1, h2, h3, h4, h5, h6, List.append_nil]
    have hstep : lintCWLContent (ParseOutcome.ok (JsValue.obj fields)) content =
        (match runRules ruleList (JsValue.obj fields) content with
         | (ds, none) => ds
         | (ds, some e) => ds ++ [catchDiag ⟨none, none, e⟩]) := rfl
    rw [hstep, hrun]
    rfl
  · show runRules [checkVersion, checkClass, checkInputs, checkFieldOrder,
      checkBlankLines] (JsValue.obj fields) content = _
    simp only [runRules, h1, h2, h3, h4, h5, List.append_nil]

/-- Witness for C10: class Workflow, inputs mapping with x: null, and a
text whose first line anchors x; the thrown in-operator error is appended
after the five earlier rules' diagnostics. -/
theorem claims_C10_witness :
    ∃ ds, lintCWLContent (ParseOutcome.ok (JsValue.obj
        [("class", JsValue.str "Workflow"),
         ("inputs", JsValue.obj [("x", JsValue.null)])])) "x: 1" =
        ds ++ [⟨"YAML parsing error: " ++
          "Cannot use \x27in\x27 operator to search for \x27label\x27 in null", 0, 0⟩] ∧
      runRules (ruleList.take 5)
        (JsValue.obj [("class", JsValue.str "Workflow"),
          ("inputs", JsValue.obj [("x", JsValue.null)])]) "x: 1" = (ds, none) :=
  claims_C10 [("class", JsValue.str "Workflow"), ("inputs", JsValue.obj [("x", JsValue.null)])]
    [("x", JsValue.null)] "x: 1" "x" rfl rfl (by simp) (by decide)

/-- Counterexample to C10 as stated: the flow-style one-line document
with class Workflow and inputs x: null. The key x anchors to no line (the
single line starts with a brace), so the findIndex guard skips the null
entry before the in test: nothing throws, the result is the plain
missing-version diagnostic, and no diagnostic carries the parse-error
prefix — contradicting the claim that every null inputs entry makes the
rule throw. -/
theorem claims_C10_cex :
    lintCWLContent (ParseOutcome.ok (JsValue.obj
        [("class", JsValue.str "Workflow"),
         ("inputs", JsValue.obj [("x", JsValue.null)])]))
        "\x7bclass: Workflow, inputs: \x7bx: null\x7d\x7d" =
      [⟨"Missing cwlVersion field", 0, 0⟩] ∧
    (∀ d ∈ lintCWLContent (ParseOutcome.ok (JsValue.obj
        [("class", JsValue.str "Workflow"),
         ("inputs", JsValue.obj [("x", JsValue.null)])]))
        "\x7bclass: Workflow, inputs: \x7bx: null\x7d\x7d",
       ("YAML parsing error: " : String).data.isPrefixOf d.message.data = false) := by
  constructor
  · decide
  · decide
